import Mathlib

/-!
Verification of the go-hop-exchange core against its specification.

Shallow embedding of two subsystems:
* the payment-channel manager (`payments` package: `channel`, `fundsReq`,
  `mergedFundsReq`, `multiLock`, `msgListeners`), and
* the replication engine (`exchange` package: `Replication`, `Dispatch`,
  `AuthorizePull`, `ValidatePull`, `ValidatePush`).

Machine-level Go values are modelled as follows: `filecoin.BigInt` as `Int`,
addresses / CIDs / peer ids as `Nat` (opaque identifiers compared by
equality), Go maps and `peer.Set` as association lists, fallible calls as
`Except`/`Option` results, and goroutine-driven loops as fuel-bounded
recursion where the fuel is the source's attempt budget.
-/

namespace Hop

/-- Wallet / actor address (opaque identifier). -/
abbrev Addr := Nat

/-- Content / message identifier (opaque identifier). -/
abbrev Cid := Nat

/-- libp2p peer identifier (opaque identifier). -/
abbrev PeerID := Nat

/-- Go `error` payloads are tracked by their message. -/
abbrev ErrMsg := String

/-! ## Payments: `ChannelInfo` and the `Store` -/

/-- The fields of `ChannelInfo` acted on by the `channel` lifecycle code:
`Channel` (robust address, absent until creation confirms), `Control`/`Target`
(from/to), `Amount`, `PendingAmount`, and the outstanding message digests
`CreateMsg`/`AddFundsMsg`. -/
structure ChannelInfo where
  ChannelID : String
  Control : Addr
  Target : Addr
  Channel : Option Addr
  Amount : Int
  PendingAmount : Int
  CreateMsg : Option Cid
  AddFundsMsg : Option Cid
deriving DecidableEq

/-- The durable paych store: channel records plus message-result records
keyed by message digest. Modelled as association lists. -/
structure Store where
  channels : List ChannelInfo
  msgResults : List (Cid × Option ErrMsg)
deriving DecidableEq

/-- `Store.ByChannelID`: look a channel record up by its id. -/
def Store.ByChannelID (s : Store) (channelID : String) : Option ChannelInfo :=
  s.channels.find? (fun ci => ci.ChannelID == channelID)

/-- `Store.putChannelInfo`: overwrite the record with the same channel id. -/
def Store.putChannelInfo (s : Store) (ci : ChannelInfo) : Store :=
  { s with channels :=
      s.channels.map (fun c => if c.ChannelID == ci.ChannelID then ci else c) }

/-- `Store.RemoveChannel`: delete the record with the given channel id. -/
def Store.RemoveChannel (s : Store) (channelID : String) : Store :=
  { s with channels := s.channels.filter (fun c => !(c.ChannelID == channelID)) }

/-- `Store.SaveMessageResult`: record the outcome of an on-chain message. -/
def Store.SaveMessageResult (s : Store) (mcid : Cid) (err : Option ErrMsg) : Store :=
  { s with msgResults := s.msgResults ++ [(mcid, err)] }

/-- `channel.mutateChannelInfo`: read the record, apply the mutation, write it
back; a read failure is only logged in the source, so a missing record leaves
the store unchanged. -/
def mutateChannelInfo (s : Store) (channelID : String)
    (mutate : ChannelInfo → ChannelInfo) : Store :=
  match s.ByChannelID channelID with
  | none => s
  | some ci => s.putChannelInfo (mutate ci)

/-! ## Payments: chain wait results -/

/-- `init2.ExecReturn`: the decoded return of a successful channel-creation
message, carrying the robust address of the new payment-channel actor. -/
structure ExecReturn where
  IDAddress : Addr
  RobustAddress : Addr
deriving DecidableEq

/-- The receipt delivered by `StateWaitMsg`. `ret` is the CBOR decoding of
`Receipt.Return` as an `ExecReturn`; `none` models a decode failure. -/
structure Receipt where
  ExitCode : Int
  ret : Option ExecReturn
deriving DecidableEq

/-- The lookup returned by `StateWaitMsg`. -/
structure MsgLookup where
  Receipt : Receipt
deriving DecidableEq

/-- `channel.waitPaychCreateMsg`, as a function of the `StateWaitMsg` outcome:
on a wait error, return it; on non-zero exit code, remove the channel from the
store and fail; on exit code 0, decode the return and store the robust
address, move `PendingAmount` into `Amount` and clear `CreateMsg`.
Returns the updated store and the error, if any. -/
def waitPaychCreateMsg (s : Store) (channelID : String)
    (wait : Except ErrMsg MsgLookup) : Store × Option ErrMsg :=
  match wait with
  | .error e => (s, some e)
  | .ok mwait =>
    if mwait.Receipt.ExitCode ≠ 0 then
      (s.RemoveChannel channelID,
       some ("payment channel creation failed (exit code " ++
             toString mwait.Receipt.ExitCode ++ ")"))
    else
      match mwait.Receipt.ret with
      | none => (s, some "Error decoding Receipt")
      | some decodedReturn =>
        (mutateChannelInfo s channelID (fun channelInfo =>
          { channelInfo with
              Channel := some decodedReturn.RobustAddress,
              Amount := channelInfo.PendingAmount,
              PendingAmount := 0,
              CreateMsg := none }), none)

/-- `channel.waitAddFundsMsg`, as a function of the `StateWaitMsg` outcome:
on a wait error, return it; on non-zero exit code, roll the pending amount
back (`PendingAmount := 0`, clear `AddFundsMsg`) and fail; on exit code 0,
add `PendingAmount` into `Amount`, zero it and clear `AddFundsMsg`. -/
def waitAddFundsMsg (s : Store) (channelID : String)
    (wait : Except ErrMsg MsgLookup) : Store × Option ErrMsg :=
  match wait with
  | .error e => (s, some e)
  | .ok mwait =>
    if mwait.Receipt.ExitCode ≠ 0 then
      (mutateChannelInfo s channelID (fun channelInfo =>
        { channelInfo with
            PendingAmount := 0,
            AddFundsMsg := none }),
       some ("voucher channel creation failed: adding funds (exit code " ++
             toString mwait.Receipt.ExitCode ++ ")"))
    else
      (mutateChannelInfo s channelID (fun channelInfo =>
        { channelInfo with
            Amount := channelInfo.Amount + channelInfo.PendingAmount,
            PendingAmount := 0,
            AddFundsMsg := none }), none)

/-! ## Payments: funds requests and merging -/

/-- `fundsReq`: the fields relevant to merging — the requested amount and
whether the request's context is still active (not cancelled). -/
structure FundsReq where
  amt : Int
  active : Bool
deriving DecidableEq

/-- `paychFundsRes`: the response to a create-channel or add-funds request. -/
structure PaychFundsRes where
  channel : Addr
  mcid : Cid
  err : Option ErrMsg
deriving DecidableEq

/-- `mergedFundsReq`: several queued funds requests merged so that a single
on-chain message covers all of them. -/
structure MergedFundsReq where
  reqs : List FundsReq
deriving DecidableEq

/-- `mergedFundsReq.sum`: the sum of the amounts of the still-active
requests in the merge. -/
def MergedFundsReq.sum (m : MergedFundsReq) : Int :=
  m.reqs.foldl (fun sum r => if r.active then sum + r.amt else sum) 0

/-- `mergedFundsReq.onComplete`: deliver the result to every still-active
constituent request's promise; a cancelled request receives nothing. Returns,
for each constituent in order, what its promise received. -/
def MergedFundsReq.onComplete (m : MergedFundsReq) (res : PaychFundsRes) :
    List (Option PaychFundsRes) :=
  m.reqs.map (fun r => if r.active then some res else none)

/-- An on-chain funds message: either a channel-creation message (to the init
actor, paying the target) or an add-funds message to the channel's robust
address. -/
inductive FundsMsg where
  | create (toAddr : Addr) (value : Int)
  | addFunds (chAddr : Addr) (value : Int)
deriving DecidableEq

/-- The value carried by a funds message. -/
def FundsMsg.value : FundsMsg → Int
  | .create _ v => v
  | .addFunds _ v => v

/-- Modelled from the spec: the funds-request queue processor
(`processQueue` / `GetOrCreateChannel`) is not among the provided sources —
only the merge machinery it drives is. Per §4.6 steps 1-2, processing a
merged request submits exactly one on-chain message, a Create when
`channelAddr` is unset and an AddFunds to `channelAddr` otherwise, whose
value is the merge's sum. Returns the list of submitted messages. -/
def processMergedReq (chAddr : Option Addr) (toAddr : Addr) (m : MergedFundsReq) :
    List FundsMsg :=
  match chAddr with
  | none => [.create toAddr m.sum]
  | some a => [.addFunds a m.sum]

/-! ## Payments: message completion and the funds-request queue -/

/-- The per-channel mutable state touched by `channel.msgWaitComplete`: the
durable store, the funds-request queue, the `MsgComplete` events published to
`msgListeners` so far, and the on-chain funds messages submitted by the queue
processor so far. -/
structure ChState where
  store : Store
  fundsReqQueue : List FundsReq
  firedEvents : List (Cid × Option ErrMsg)
  submitted : List FundsMsg
deriving DecidableEq

/-- `channel.msgWaitComplete` from the source: saves the message result to the
store and fires the `MsgComplete` event to subscribers. The step that would
process the next queued request is commented out in the source
(`// if len(ca.fundsReqQueue) > 0 { go ca.processQueue("") }`), so the
funds-request queue is left untouched and no further message is submitted. -/
def msgWaitComplete (st : ChState) (mcid : Cid) (err : Option ErrMsg) : ChState :=
  { st with
      store := st.store.SaveMessageResult mcid err,
      firedEvents := st.firedEvents ++ [(mcid, err)] }

/-! ## Payments: `multiLock` -/

/-- Acquisition and release events on the two locks managed by `multiLock`:
the per-channel exclusive mutex and the global reader-writer lock. -/
inductive LockEvent where
  | chanAcquire
  | chanRelease
  | globalRAcquire
  | globalRRelease
  | globalWAcquire
  | globalWRelease
deriving DecidableEq

/-- `multiLock.Lock` from the source, as its event trace: first
`l.chanLock.Lock()` (exclusive per-channel), then `l.globalLock.RLock()`. -/
def multiLockLock : List LockEvent := [.chanAcquire, .globalRAcquire]

/-- `multiLock.Unlock` from the source, as its event trace: first
`l.globalLock.RUnlock()`, then `l.chanLock.Unlock()`. -/
def multiLockUnlock : List LockEvent := [.globalRRelease, .chanRelease]

/-- The release event matching an acquisition event. -/
def LockEvent.release : LockEvent → LockEvent
  | .chanAcquire => .chanRelease
  | .chanRelease => .chanRelease
  | .globalRAcquire => .globalRRelease
  | .globalRRelease => .globalRRelease
  | .globalWAcquire => .globalWRelease
  | .globalWRelease => .globalWRelease

/-! ## Replication: pull authorization and validation -/

/-- The in-memory `Replication.pulls` map from a content root to the set of
peers authorized to pull it, modelled as an association list whose values are
duplicate-free peer lists (`peer.Set`). -/
abbrev PullsMap := List (Cid × List PeerID)

/-- Look the authorization set for a root up in the pulls map. -/
def pullsLookup (pulls : PullsMap) (k : Cid) : Option (List PeerID) :=
  (pulls.find? (fun e => e.1 == k)).map Prod.snd

/-- `peer.Set.Add`: add a peer to a set (no duplicates). -/
def peerSetAdd (s : List PeerID) (p : PeerID) : List PeerID :=
  if p ∈ s then s else s ++ [p]

/-- `Replication.AuthorizePull` from the source: add the peer to the
authorization set for the root, creating a fresh one-element set if the root
has no set yet. -/
def AuthorizePull (pulls : PullsMap) (k : Cid) (p : PeerID) : PullsMap :=
  match pullsLookup pulls k with
  | some _ => pulls.map (fun e => if e.1 == k then (e.1, peerSetAdd e.2 p) else e)
  | none => pulls ++ [(k, [p])]

/-- A datatransfer voucher: either the exchange's `Request` voucher (carrying
the payload root and size) or any other registered voucher type. -/
inductive Voucher where
  | request (payloadCID : Cid) (size : Nat)
  | other (typeId : String)
deriving DecidableEq

/-- `Replication.ValidatePull` from the source: look the authorization set for
`baseCid` up (failing with "unknown CID" when absent) and require that it
contains the receiver (failing with "not authorized" otherwise). The voucher
and selector arguments are not inspected. -/
def ValidatePull (pulls : PullsMap) (receiver : PeerID) (voucher : Voucher)
    (baseCid : Cid) : Except ErrMsg Unit :=
  match pullsLookup pulls baseCid with
  | none => .error "unknown CID"
  | some set => if receiver ∈ set then .ok () else .error "not authorized"

/-- `Replication.ValidatePush` from the source: always rejects. -/
def ValidatePush (sender : PeerID) (voucher : Voucher) (baseCid : Cid) :
    Except ErrMsg Unit :=
  .error "no pushed accepted"

/-- The acceptance condition asserted by the specification for `ValidatePull`:
the voucher is a `Request` whose root equals `baseCid` AND the authorization
set for the root contains the receiver. (The claimed biconditional is checked
against `ValidatePull` above, which ignores the voucher.) -/
def specPullCondition (pulls : PullsMap) (receiver : PeerID) (voucher : Voucher)
    (baseCid : Cid) : Prop :=
  (∃ size, voucher = .request baseCid size) ∧
  ∃ set, pullsLookup pulls baseCid = some set ∧ receiver ∈ set

/-! ## Replication: the dispatch loop -/

/-- Region codes (`supply.RegionCode`): `Global=0, Asia=1, Africa=2,
SouthAmerica=3, NorthAmerica=4, Europe=5, Oceania=6`; `Custom` is the maximal
code, modelled as an arbitrary distinct code since `Nat` is unbounded. -/
abbrev RegionCode := Nat

/-- `Request`: the content to pull, sent to providers on dispatch. -/
structure Request where
  PayloadCID : Cid
  Size : Nat
deriving DecidableEq

/-- `PRecord`: a provider-to-content mapping recording who stored what. -/
structure PRecord where
  Provider : PeerID
  PayloadCID : Cid
deriving DecidableEq

/-- `DispatchOptions`: parameters of a dispatch run. `BackoffMin` only
affects real-time pacing, never control flow, so it is carried but unused. -/
structure DispatchOptions where
  BackoffMin : Nat
  BackoffAttemps : Nat
  RF : Nat
deriving DecidableEq

/-- `DefaultDispatchOptions` from the source (`BackoffMin` in milliseconds). -/
def DefaultDispatchOptions : DispatchOptions :=
  { BackoffMin := 2000, BackoffAttemps := 4, RF := 7 }

/-- An entry of the peer manager's table: a connected peer together with the
region set it advertised in its `Hey` handshake. -/
structure PeerEntry where
  id : PeerID
  regions : List RegionCode
deriving DecidableEq

/-- Whether two advertised region sets intersect. -/
def regionsIntersect (a b : List RegionCode) : Bool :=
  a.any (fun r => b.contains r)

/-- Modelled from the spec: `PeerMgr.Peers(n, regions, exclude)` — the
`PeerMgr` source is not among the provided sources, only its caller
`Replication.Dispatch` is. Per §4.2 it returns "up to n peerIds whose region
set intersects regions and ∉ exclude, chosen in stable random order",
modelled as the first `n` region-matching, not-excluded entries of the
manager's peer table in table order. -/
def peersSelect (n : Nat) (regions : List RegionCode) (exclude : List PeerID)
    (table : List PeerEntry) : List PeerID :=
  ((table.filter (fun e =>
      regionsIntersect e.regions regions && !(exclude.contains e.id))).map
    (fun e => e.id)).take n

/-- The environment of one dispatch run: the peer manager's table (fixed for
the run) and, for each peer, whether opening/writing the request stream to it
succeeds (`sendOk`) and whether it completes its pull before the attempt's
backoff timer fires (`responds`). A peer that was never sent a `Request`
cannot pull: completions forwarded on the result channel come only from peers
whose pull passed `ValidatePull`, i.e. peers this run authorized. Responses
arriving after the attempt window are not modelled. -/
structure DispatchEnv where
  table : List PeerEntry
  sendOk : PeerID → Bool
  responds : PeerID → Bool

/-- The state threaded through the dispatch loop: `rcv` is the source's map
of peers already sent to, `n` the confirmation count, `out` the records
forwarded to the caller, `sentLog` the per-attempt lists of peers selected
for a `Request`, and `pulls` the authorization map written by this run. -/
structure DispatchState where
  rcv : List PeerID
  n : Nat
  out : List PRecord
  sentLog : List (List PeerID)
  pulls : PullsMap
deriving DecidableEq

/-- One attempt of the dispatch loop body: select `RF − n` fresh providers
under the region filter excluding `rcv`, authorize each for the pull and mark
it in `rcv` (before any stream is opened), send the requests (a failed send is
skipped with `continue`), then collect the confirmations that arrive before
the backoff timer — the peers of this attempt whose send succeeded and which
respond — forwarding each as a `PRecord{provider, root}`. -/
def dispatchRound (rgs : List RegionCode) (root : Cid) (rf : Nat)
    (env : DispatchEnv) (st : DispatchState) : DispatchState :=
  let providers := peersSelect (rf - st.n) rgs st.rcv env.table
  let completions := providers.filter (fun p => env.sendOk p && env.responds p)
  { rcv := st.rcv ++ providers
    n := st.n + completions.length
    out := st.out ++ completions.map (fun p => { Provider := p, PayloadCID := root })
    sentLog := st.sentLog ++ [providers]
    pulls := providers.foldl (fun ps p => AuthorizePull ps root p) st.pulls }

/-- The dispatch loop: at the top of each iteration the source gives up once
`int(b.Attempt()) > opt.BackoffAttemps`, i.e. after `BackoffAttemps + 1`
attempts (the fuel); after the confirmations of an attempt are counted it
returns as soon as `n` reaches `RF`. -/
def dispatchLoop (rgs : List RegionCode) (root : Cid) (rf : Nat)
    (env : DispatchEnv) : Nat → DispatchState → DispatchState
  | 0, st => st
  | fuel + 1, st =>
    let st' := dispatchRound rgs root rf env st
    if st'.n = rf then st' else dispatchLoop rgs root rf env fuel st'

/-- The initial state of a dispatch run. -/
def dispatchInit : DispatchState :=
  { rcv := [], n := 0, out := [], sentLog := [], pulls := [] }

/-- `Replication.Dispatch`: run the dispatch loop for content `req` with
options `opt` against environment `env`; the returned state's `out` holds the
records emitted on the (closed) result channel. -/
def Dispatch (rgs : List RegionCode) (env : DispatchEnv) (req : Request)
    (opt : DispatchOptions) : DispatchState :=
  dispatchLoop rgs req.PayloadCID opt.RF env (opt.BackoffAttemps + 1) dispatchInit

instance {ε α : Type} [DecidableEq ε] [DecidableEq α] : DecidableEq (Except ε α) :=
  fun x y =>
  match x, y with
  | .ok a, .ok b =>
    if h : a = b then isTrue (by rw [h]) else isFalse (fun hc => h (Except.ok.inj hc))
  | .ok _, .error _ => isFalse (fun hc => Except.noConfusion hc)
  | .error _, .ok _ => isFalse (fun hc => Except.noConfusion hc)
  | .error a, .error b =>
    if h : a = b then isTrue (by rw [h]) else isFalse (fun hc => h (Except.error.inj hc))

/-! ## Store lookup lemmas -/

theorem find?_map_put (l : List ChannelInfo) (ci ci' : ChannelInfo) (chId : String)
    (hfind : l.find? (fun c => c.ChannelID == chId) = some ci)
    (hid : ci'.ChannelID = chId) :
    (l.map (fun c => if c.ChannelID == ci'.ChannelID then ci' else c)).find?
      (fun c => c.ChannelID == chId) = some ci' := by
  induction l with
  | nil => simp at hfind
  | cons a l ih =>
    by_cases ha : a.ChannelID = chId
    · have hb : (a.ChannelID == ci'.ChannelID) = true := by simp [ha, hid]
      rw [List.map_cons, if_pos hb, List.find?_cons_of_pos _ (by simp [hid])]
    · rw [List.find?_cons_of_neg _ (by simp [ha])] at hfind
      have hb : ¬ (a.ChannelID == ci'.ChannelID) = true := by simp [hid]; exact ha
      rw [List.map_cons, if_neg hb, List.find?_cons_of_neg _ (by simp [ha])]
      exact ih hfind

theorem ByChannelID_putChannelInfo (s : Store) (ci ci' : ChannelInfo) (chId : String)
    (h : s.ByChannelID chId = some ci) (hid : ci'.ChannelID = chId) :
    (s.putChannelInfo ci').ByChannelID chId = some ci' :=
  find?_map_put s.channels ci ci' chId h hid

theorem ByChannelID_RemoveChannel (s : Store) (chId : String) :
    (s.RemoveChannel chId).ByChannelID chId = none := by
  rw [Store.ByChannelID, List.find?_eq_none]
  intro c hc
  have := (List.mem_filter.1 hc).2
  simpa using this

theorem ChannelID_of_ByChannelID (s : Store) (ci : ChannelInfo) (chId : String)
    (h : s.ByChannelID chId = some ci) : ci.ChannelID = chId := by
  have := List.find?_some h
  simpa using this

theorem mutateChannelInfo_found (s : Store) (channelID : String) (ci : ChannelInfo)
    (mutate : ChannelInfo → ChannelInfo) (hci : s.ByChannelID channelID = some ci) :
    mutateChannelInfo s channelID mutate = s.putChannelInfo (mutate ci) := by
  unfold mutateChannelInfo
  rw [hci]

/-! ## C1, C4, C5, C2, C9 -/

/-- C1 (code evaluated at the failing input): a message completes while a
funds request sits on the queue. `msgWaitComplete` saves the message result
and fires the `MsgComplete` event, but — the processing step being commented
out in the source — the funds-request queue is left exactly as it was and no
on-chain message is submitted, so the queued request is never dispatched. -/
theorem msgWaitComplete_queue_stalls :
    msgWaitComplete
        { store := ⟨[], []⟩, fundsReqQueue := [⟨5, true⟩],
          firedEvents := [], submitted := [] } 42 none =
      { store := ⟨[], [(42, none)]⟩, fundsReqQueue := [⟨5, true⟩],
        firedEvents := [(42, none)], submitted := [] } := by
  rfl

/-- C4: when the channel-creation message confirms with exit code 0 and its
return decodes, the channel record gains the robust address, `PendingAmount`
moves into `Amount`, and `CreateMsg` is cleared; when it confirms with a
non-zero exit code, the record is removed from the store and the operation
resolves with an error. -/
theorem waitPaychCreateMsg_confirmation (s : Store) (channelID : String)
    (mwait : MsgLookup) (ci : ChannelInfo)
    (hci : s.ByChannelID channelID = some ci) :
    (∀ ret, mwait.Receipt.ExitCode = 0 → mwait.Receipt.ret = some ret →
        (waitPaychCreateMsg s channelID (.ok mwait)).1.ByChannelID channelID =
          some { ci with Channel := some ret.RobustAddress,
                         Amount := ci.PendingAmount,
                         PendingAmount := 0,
                         CreateMsg := none } ∧
        (waitPaychCreateMsg s channelID (.ok mwait)).2 = none) ∧
    (mwait.Receipt.ExitCode ≠ 0 →
        (waitPaychCreateMsg s channelID (.ok mwait)).1.ByChannelID channelID = none ∧
        ∃ e, (waitPaychCreateMsg s channelID (.ok mwait)).2 = some e) := by
  have hcid : ci.ChannelID = channelID := ChannelID_of_ByChannelID s ci channelID hci
  constructor
  · intro ret h0 hret
    rw [waitPaychCreateMsg, if_neg (by simp [h0]), hret]
    dsimp only
    refine ⟨?_, rfl⟩
    rw [mutateChannelInfo_found s channelID ci _ hci]
    exact ByChannelID_putChannelInfo s ci _ channelID hci hcid
  · intro hne
    rw [waitPaychCreateMsg, if_pos hne]
    exact ⟨ByChannelID_RemoveChannel s channelID, _, rfl⟩

/-- Witness for C4: a store holding channel "ch1" with pending amount 50;
a confirmation with exit code 0 returning robust address 4 installs the
address and moves the 50 into `Amount`; a confirmation with exit code 7
removes the channel. -/
theorem waitPaychCreateMsg_confirmation_witness :
    ((waitPaychCreateMsg ⟨[⟨"ch1", 1, 2, none, 0, 50, some 42, none⟩], []⟩ "ch1"
        (.ok ⟨⟨0, some ⟨3, 4⟩⟩⟩)).1.ByChannelID "ch1" =
      some ⟨"ch1", 1, 2, some 4, 50, 0, none, none⟩ ∧
     (waitPaychCreateMsg ⟨[⟨"ch1", 1, 2, none, 0, 50, some 42, none⟩], []⟩ "ch1"
        (.ok ⟨⟨0, some ⟨3, 4⟩⟩⟩)).2 = none) ∧
    ((waitPaychCreateMsg ⟨[⟨"ch1", 1, 2, none, 0, 50, some 42, none⟩], []⟩ "ch1"
        (.ok ⟨⟨7, none⟩⟩)).1.ByChannelID "ch1" = none ∧
     ∃ e, (waitPaychCreateMsg ⟨[⟨"ch1", 1, 2, none, 0, 50, some 42, none⟩], []⟩ "ch1"
        (.ok ⟨⟨7, none⟩⟩)).2 = some e) :=
  ⟨(waitPaychCreateMsg_confirmation ⟨[⟨"ch1", 1, 2, none, 0, 50, some 42, none⟩], []⟩
      "ch1" ⟨⟨0, some ⟨3, 4⟩⟩⟩ ⟨"ch1", 1, 2, none, 0, 50, some 42, none⟩ rfl).1
      ⟨3, 4⟩ rfl rfl,
   (waitPaychCreateMsg_confirmation ⟨[⟨"ch1", 1, 2, none, 0, 50, some 42, none⟩], []⟩
      "ch1" ⟨⟨7, none⟩⟩ ⟨"ch1", 1, 2, none, 0, 50, some 42, none⟩ rfl).2
      (by decide)⟩

/-- C5: when an add-funds message confirms with exit code 0, the pending
amount is added to the confirmed amount, zeroed, and `AddFundsMsg` cleared;
with a non-zero exit code the pending amount is rolled back — `PendingAmount`
zeroed and `AddFundsMsg` cleared with `Amount` unchanged — and the error is
surfaced. -/
theorem waitAddFundsMsg_confirmation (s : Store) (channelID : String)
    (mwait : MsgLookup) (ci : ChannelInfo)
    (hci : s.ByChannelID channelID = some ci) :
    (mwait.Receipt.ExitCode = 0 →
        (waitAddFundsMsg s channelID (.ok mwait)).1.ByChannelID channelID =
          some { ci with Amount := ci.Amount + ci.PendingAmount,
                         PendingAmount := 0,
                         AddFundsMsg := none } ∧
        (waitAddFundsMsg s channelID (.ok mwait)).2 = none) ∧
    (mwait.Receipt.ExitCode ≠ 0 →
        (waitAddFundsMsg s channelID (.ok mwait)).1.ByChannelID channelID =
          some { ci with PendingAmount := 0, AddFundsMsg := none } ∧
        ∃ e, (waitAddFundsMsg s channelID (.ok mwait)).2 = some e) := by
  have hcid : ci.ChannelID = channelID := ChannelID_of_ByChannelID s ci channelID hci
  constructor
  · intro h0
    rw [waitAddFundsMsg, if_neg (by simp [h0])]
    refine ⟨?_, rfl⟩
    rw [mutateChannelInfo_found s channelID ci _ hci]
    exact ByChannelID_putChannelInfo s ci _ channelID hci hcid
  · intro hne
    rw [waitAddFundsMsg, if_pos hne]
    refine ⟨?_, _, rfl⟩
    rw [mutateChannelInfo_found s channelID ci _ hci]
    exact ByChannelID_putChannelInfo s ci _ channelID hci hcid

/-- Witness for C5: channel "ch1" with confirmed amount 10 and pending 50;
exit code 0 yields amount 60 with pending 0; exit code 7 rolls back to
amount 10 with pending 0 and an error. -/
theorem waitAddFundsMsg_confirmation_witness :
    ((waitAddFundsMsg ⟨[⟨"ch1", 1, 2, some 9, 10, 50, none, some 43⟩], []⟩ "ch1"
        (.ok ⟨⟨0, none⟩⟩)).1.ByChannelID "ch1" =
      some ⟨"ch1", 1, 2, some 9, 60, 0, none, none⟩ ∧
     (waitAddFundsMsg ⟨[⟨"ch1", 1, 2, some 9, 10, 50, none, some 43⟩], []⟩ "ch1"
        (.ok ⟨⟨0, none⟩⟩)).2 = none) ∧
    ((waitAddFundsMsg ⟨[⟨"ch1", 1, 2, some 9, 10, 50, none, some 43⟩], []⟩ "ch1"
        (.ok ⟨⟨7, none⟩⟩)).1.ByChannelID "ch1" =
      some ⟨"ch1", 1, 2, some 9, 10, 0, none, none⟩ ∧
     ∃ e, (waitAddFundsMsg ⟨[⟨"ch1", 1, 2, some 9, 10, 50, none, some 43⟩], []⟩ "ch1"
        (.ok ⟨⟨7, none⟩⟩)).2 = some e) :=
  ⟨(waitAddFundsMsg_confirmation ⟨[⟨"ch1", 1, 2, some 9, 10, 50, none, some 43⟩], []⟩
      "ch1" ⟨⟨0, none⟩⟩ ⟨"ch1", 1, 2, some 9, 10, 50, none, some 43⟩ rfl).1 rfl,
   (waitAddFundsMsg_confirmation ⟨[⟨"ch1", 1, 2, some 9, 10, 50, none, some 43⟩], []⟩
      "ch1" ⟨⟨7, none⟩⟩ ⟨"ch1", 1, 2, some 9, 10, 50, none, some 43⟩ rfl).2
      (by decide)⟩

theorem foldl_sum_active (l : List FundsReq) (a : Int) :
    l.foldl (fun sum r => if r.active then sum + r.amt else sum) a =
      a + ((l.filter (fun r => r.active)).map (fun r => r.amt)).sum := by
  induction l generalizing a with
  | nil => simp
  | cons r l ih =>
    cases hr : r.active <;> simp [List.foldl_cons, List.filter_cons, hr, ih, add_assoc]

/-- C2: processing a merged funds request submits exactly one on-chain
message, whose value is the sum of the amounts of the still-active
constituent requests (cancelled requests contribute nothing), and completion
delivers the very same result to each still-active constituent's promise
while cancelled constituents receive nothing. -/
theorem mergedFundsReq_merge_correctness (chAddr : Option Addr) (toAddr : Addr)
    (m : MergedFundsReq) (res : PaychFundsRes) :
    (processMergedReq chAddr toAddr m).length = 1 ∧
    (∀ msg ∈ processMergedReq chAddr toAddr m,
        msg.value = ((m.reqs.filter (fun r => r.active)).map (fun r => r.amt)).sum) ∧
    List.Forall₂ (fun (r : FundsReq) d => d = if r.active then some res else none)
      m.reqs (m.onComplete res) := by
  refine ⟨?_, ?_, ?_⟩
  · cases chAddr <;> rfl
  · intro msg hmsg
    have hsum : m.sum = ((m.reqs.filter (fun r => r.active)).map (fun r => r.amt)).sum := by
      rw [MergedFundsReq.sum, foldl_sum_active, zero_add]
    cases chAddr <;> simp [processMergedReq] at hmsg <;> rw [hmsg] <;>
      simpa [FundsMsg.value] using hsum
  · rw [MergedFundsReq.onComplete, List.forall₂_map_right_iff]
    exact List.forall₂_same.2 (fun r _ => rfl)

/-- Witness for C2: three requests of amounts 5, 7, 3 with the 7 cancelled:
one message of value 8, the same result delivered to the two active
requests and nothing to the cancelled one. -/
theorem mergedFundsReq_merge_correctness_witness :
    (processMergedReq none 9 ⟨[⟨5, true⟩, ⟨7, false⟩, ⟨3, true⟩]⟩).length = 1 ∧
    (∀ msg ∈ processMergedReq none 9 ⟨[⟨5, true⟩, ⟨7, false⟩, ⟨3, true⟩]⟩,
        msg.value = (((⟨[⟨5, true⟩, ⟨7, false⟩, ⟨3, true⟩]⟩ : MergedFundsReq).reqs.filter
          (fun r => r.active)).map (fun r => r.amt)).sum) ∧
    List.Forall₂
      (fun (r : FundsReq) d =>
        d = if r.active then some (⟨1, 2, none⟩ : PaychFundsRes) else none)
      (⟨[⟨5, true⟩, ⟨7, false⟩, ⟨3, true⟩]⟩ : MergedFundsReq).reqs
      (MergedFundsReq.onComplete ⟨[⟨5, true⟩, ⟨7, false⟩, ⟨3, true⟩]⟩ ⟨1, 2, none⟩) :=
  mergedFundsReq_merge_correctness none 9 ⟨[⟨5, true⟩, ⟨7, false⟩, ⟨3, true⟩]⟩ ⟨1, 2, none⟩

/-- C9 (counterexample): `multiLock.Lock` does not acquire the global read
lock first — its trace starts with the per-channel acquisition — and
`multiLock.Unlock` does not release the per-channel lock first. -/
theorem multiLock_order_counterexample :
    multiLockLock ≠ [.globalRAcquire, .chanAcquire] ∧
    multiLockUnlock ≠ [.chanRelease, .globalRRelease] := by
  exact ⟨by decide, by decide⟩

/-- C9 (amended): every per-channel operation acquires the per-channel
exclusive lock first and the global read lock second, releases them in the
reverse order, and never touches the global write side (which is reserved
for mutating the channel index). -/
theorem multiLock_order_amended :
    multiLockLock = [.chanAcquire, .globalRAcquire] ∧
    multiLockUnlock = multiLockLock.reverse.map LockEvent.release ∧
    LockEvent.globalWAcquire ∉ multiLockLock ∧
    LockEvent.globalWAcquire ∉ multiLockUnlock ∧
    LockEvent.globalWRelease ∉ multiLockUnlock := by
  refine ⟨rfl, rfl, by decide, by decide, by decide⟩

/-! ## Authorization-map lemmas -/

theorem mem_peerSetAdd (s : List PeerID) (p q : PeerID) :
    q ∈ peerSetAdd s p ↔ q ∈ s ∨ q = p := by
  rw [peerSetAdd]
  by_cases h : p ∈ s
  · rw [if_pos h]
    constructor
    · exact fun hq => Or.inl hq
    · rintro (hq | rfl) <;> [exact hq; exact h]
  · rw [if_neg h]
    simp

theorem find?_append_pulls (l₁ l₂ : PullsMap) (c : Cid) :
    (l₁ ++ l₂).find? (fun e => e.1 == c) =
      ((l₁.find? (fun e => e.1 == c)).elim (l₂.find? (fun e => e.1 == c)) some) := by
  induction l₁ with
  | nil => simp
  | cons a l ih =>
    by_cases ha : a.1 = c
    · simp [List.find?_cons, ha]
    · rw [List.cons_append, List.find?_cons_of_neg _ (by simp [ha]),
          List.find?_cons_of_neg _ (by simp [ha]), ih]

theorem find?_map_keyfix (l : PullsMap) (f : Cid × List PeerID → Cid × List PeerID)
    (hf : ∀ e, (f e).1 = e.1) (c : Cid) :
    (l.map f).find? (fun e => e.1 == c) = (l.find? (fun e => e.1 == c)).map f := by
  induction l with
  | nil => rfl
  | cons a l ih =>
    by_cases ha : a.1 = c
    · rw [List.map_cons, List.find?_cons_of_pos _ (by simp [hf, ha]),
          List.find?_cons_of_pos _ (by simp [ha])]
      rfl
    · rw [List.map_cons, List.find?_cons_of_neg _ (by simp [hf, ha]),
          List.find?_cons_of_neg _ (by simp [ha]), ih]

/-- Case equation for `AuthorizePull` when the root already has a set. -/
theorem AuthorizePull_found (pulls : PullsMap) (k : Cid) (p : PeerID)
    (s : List PeerID) (hk : pullsLookup pulls k = some s) :
    AuthorizePull pulls k p =
      pulls.map (fun e => if e.1 == k then (e.1, peerSetAdd e.2 p) else e) := by
  unfold AuthorizePull
  rw [hk]

/-- Case equation for `AuthorizePull` when the root has no set yet. -/
theorem AuthorizePull_not_found (pulls : PullsMap) (k : Cid) (p : PeerID)
    (hk : pullsLookup pulls k = none) :
    AuthorizePull pulls k p = pulls ++ [(k, [p])] := by
  unfold AuthorizePull
  rw [hk]

/-- The effect of `AuthorizePull` on lookups: the set for the authorized root
gains the peer (or is created as a singleton); every other root's set is
untouched. -/
theorem pullsLookup_AuthorizePull (pulls : PullsMap) (k : Cid) (p : PeerID) (c : Cid) :
    pullsLookup (AuthorizePull pulls k p) c =
      if c = k then
        some ((pullsLookup pulls k).elim [p] (fun s => peerSetAdd s p))
      else pullsLookup pulls c := by
  cases hk : pullsLookup pulls k with
  | none =>
    have hfk : pulls.find? (fun e => e.1 == k) = none := by
      rw [pullsLookup] at hk
      exact Option.map_eq_none.1 hk
    rw [AuthorizePull_not_found pulls k p hk, pullsLookup, find?_append_pulls]
    by_cases hc : c = k
    · subst hc
      rw [hfk]
      simp [List.find?]
    · rw [if_neg hc, pullsLookup]
      cases hfc : pulls.find? (fun e => e.1 == c) with
      | none =>
        have hkc : (k == c) = false := by simp [Ne.symm hc]
        simp [List.find?, hkc]
      | some e => rfl
  | some s =>
    obtain ⟨e, hfk, hek, hes⟩ :
        ∃ e, pulls.find? (fun e => e.1 == k) = some e ∧ e.1 = k ∧ e.2 = s := by
      rw [pullsLookup] at hk
      cases hfind : pulls.find? (fun e => e.1 == k) with
      | none =>
        rw [hfind] at hk
        simp at hk
      | some e =>
        refine ⟨e, rfl, ?_, ?_⟩
        · simpa using List.find?_some hfind
        · rw [hfind] at hk
          simpa using hk
    rw [AuthorizePull_found pulls k p s hk, pullsLookup,
        find?_map_keyfix _ _ (fun e => by by_cases he : (e.1 == k) = true <;> simp [he]) c]
    by_cases hc : c = k
    · subst hc
      rw [hfk, hk, if_pos rfl]
      simp [hek, hes]
    · rw [if_neg hc, pullsLookup]
      cases hfc : pulls.find? (fun e => e.1 == c) with
      | none => rfl
      | some e' =>
        have he' : e'.1 = c := by simpa using List.find?_some hfc
        simp [he', hc]

/-- Authorization sets only record what `AuthorizePull` put in them: a peer
is in the set reached after a fold of `AuthorizePull` calls iff it was there
before or one of the calls authorized exactly that root-peer pair. -/
theorem mem_foldl_auth (auths : List (Cid × PeerID)) (pulls : PullsMap)
    (c : Cid) (p : PeerID) :
    (∃ s, pullsLookup
        (auths.foldl (fun ps a => AuthorizePull ps a.1 a.2) pulls) c = some s ∧ p ∈ s) ↔
      ((∃ s, pullsLookup pulls c = some s ∧ p ∈ s) ∨ (c, p) ∈ auths) := by
  induction auths generalizing pulls with
  | nil => simp
  | cons a auths ih =>
    rw [List.foldl_cons, ih]
    have hstep :
        (∃ s, pullsLookup (AuthorizePull pulls a.1 a.2) c = some s ∧ p ∈ s) ↔
          ((∃ s, pullsLookup pulls c = some s ∧ p ∈ s) ∨ (c = a.1 ∧ p = a.2)) := by
      rw [pullsLookup_AuthorizePull]
      by_cases hc : c = a.1
      · rw [if_pos hc, hc]
        cases hs : pullsLookup pulls a.1 with
        | none => simp [hs, mem_peerSetAdd]
        | some s => simp [hs, mem_peerSetAdd]
      · simp [hc]
    rw [hstep]
    constructor
    · rintro ((h | ⟨rfl, rfl⟩) | h)
      · exact Or.inl h
      · exact Or.inr (List.mem_cons_self _ _)
      · exact Or.inr (List.mem_cons_of_mem _ h)
    · rintro (h | h)
      · exact Or.inl (Or.inl h)
      · rcases List.mem_cons.1 h with rfl | h
        · exact Or.inl (Or.inr ⟨rfl, rfl⟩)
        · exact Or.inr h

/-- A pulls map built by a sequence of `AuthorizePull` calls starting from
the empty map (the state of a fresh `Replication`). -/
def applyAuths (auths : List (Cid × PeerID)) : PullsMap :=
  auths.foldl (fun pulls a => AuthorizePull pulls a.1 a.2) []

theorem mem_applyAuths (auths : List (Cid × PeerID)) (c : Cid) (p : PeerID) :
    (∃ s, pullsLookup (applyAuths auths) c = some s ∧ p ∈ s) ↔ (c, p) ∈ auths := by
  rw [applyAuths, mem_foldl_auth]
  simp [pullsLookup]

/-! ## C3 -/

/-- C3 (counterexample): `ValidatePull` never inspects the voucher. With root
1 authorized for peer 7, a pull by 7 presenting a voucher that is not a
`Request` for the root is accepted, although the claimed biconditional
requires it to be rejected. -/
theorem validatePull_voucher_counterexample :
    ValidatePull [(1, [7])] 7 (.other "RetrievalDealProposal") 1 = .ok () ∧
    ¬ specPullCondition [(1, [7])] 7 (.other "RetrievalDealProposal") 1 := by
  refine ⟨rfl, ?_⟩
  rintro ⟨⟨size, hv⟩, -⟩
  exact Voucher.noConfusion hv

/-- C3 (amended): `ValidatePull` accepts a pull iff the receiver was
`AuthorizePull`'d for `baseCid` — the voucher is not inspected; otherwise it
rejects with "unknown CID" when no authorization set exists for `baseCid` and
with "not authorized" when the set lacks the receiver; and `ValidatePush`
rejects every push. -/
theorem validatePull_authorization (auths : List (Cid × PeerID))
    (receiver : PeerID) (voucher : Voucher) (baseCid : Cid) :
    (ValidatePull (applyAuths auths) receiver voucher baseCid = .ok () ↔
      (baseCid, receiver) ∈ auths) ∧
    (pullsLookup (applyAuths auths) baseCid = none →
      ValidatePull (applyAuths auths) receiver voucher baseCid = .error "unknown CID") ∧
    (∀ s, pullsLookup (applyAuths auths) baseCid = some s → receiver ∉ s →
      ValidatePull (applyAuths auths) receiver voucher baseCid =
        .error "not authorized") ∧
    ValidatePush receiver voucher baseCid = .error "no pushed accepted" := by
  refine ⟨?_, ?_, ?_, rfl⟩
  · rw [← mem_applyAuths auths baseCid receiver, ValidatePull]
    cases hs : pullsLookup (applyAuths auths) baseCid with
    | none => simp [hs]
    | some s => by_cases hr : receiver ∈ s <;> simp [hs, hr]
  · intro hnone
    rw [ValidatePull, hnone]
  · intro s hs hr
    rw [ValidatePull, hs]
    simp [hr]

/-- Witness for C3 (amended): after the single authorization of peer 7 for
root 1, peer 7's pull is accepted whatever the voucher, peer 8's pull is
rejected as "not authorized", and a pull for the unknown root 2 is rejected
as "unknown CID". -/
theorem validatePull_authorization_witness :
    ValidatePull (applyAuths [(1, 7)]) 7 (.other "X") 1 = .ok () ∧
    ValidatePull (applyAuths [(1, 7)]) 8 (.other "X") 1 = .error "not authorized" ∧
    ValidatePull (applyAuths [(1, 7)]) 8 (.other "X") 2 = .error "unknown CID" :=
  ⟨(validatePull_authorization [(1, 7)] 7 (.other "X") 1).1.mpr (by decide),
   (validatePull_authorization [(1, 7)] 8 (.other "X") 1).2.2.1 [7] (by decide)
     (by decide),
   (validatePull_authorization [(1, 7)] 8 (.other "X") 2).2.1 (by decide)⟩

/-! ## Dispatch lemmas -/

theorem mem_peersSelect {p : PeerID} {n : Nat} {rgs : List RegionCode}
    {excl : List PeerID} {table : List PeerEntry}
    (h : p ∈ peersSelect n rgs excl table) :
    (∃ e ∈ table, e.id = p ∧ regionsIntersect e.regions rgs = true) ∧ p ∉ excl := by
  rw [peersSelect] at h
  have h1 := List.take_subset _ _ h
  obtain ⟨e, he, rfl⟩ := List.mem_map.1 h1
  obtain ⟨hmem, hpred⟩ := List.mem_filter.1 he
  rw [Bool.and_eq_true] at hpred
  refine ⟨⟨e, hmem, rfl, hpred.1⟩, ?_⟩
  have h2 := hpred.2
  simp only [Bool.not_eq_true'] at h2
  intro hcontra
  have hc : excl.contains e.id = true := by
    rw [List.contains_eq_any_beq, List.any_eq_true]
    exact ⟨e.id, hcontra, by simp⟩
  rw [hc] at h2
  exact absurd h2 (by simp)

theorem peersSelect_length_le (n : Nat) (rgs : List RegionCode)
    (excl : List PeerID) (table : List PeerEntry) :
    (peersSelect n rgs excl table).length ≤ n := by
  rw [peersSelect]
  exact List.length_take_le _ _

theorem peersSelect_nodup {n : Nat} {rgs : List RegionCode} {excl : List PeerID}
    {table : List PeerEntry} (h : (table.map PeerEntry.id).Nodup) :
    (peersSelect n rgs excl table).Nodup := by
  rw [peersSelect]
  refine List.Nodup.sublist (List.take_sublist _ _) ?_
  exact List.Nodup.sublist (List.Sublist.map _ (List.filter_sublist _)) h

theorem peersSelect_nil_exclude (n : Nat) (rgs : List RegionCode)
    (table : List PeerEntry) :
    peersSelect n rgs [] table =
      ((table.filter (fun e => regionsIntersect e.regions rgs)).map
        (fun e => e.id)).take n := by
  rw [peersSelect]
  congr 2
  apply List.filter_congr
  intro e _
  simp [List.contains]

theorem foldl_auth_eq (ps : List PeerID) (root : Cid) (pulls : PullsMap) :
    ps.foldl (fun a p => AuthorizePull a root p) pulls =
      (ps.map (fun p => (root, p))).foldl (fun a e => AuthorizePull a e.1 e.2) pulls := by
  rw [List.foldl_map]

/-- Invariant of the dispatch loop state: every logged selection is recorded
in the seen set `rcv`; selections of distinct attempts are disjoint; when the
peer table carries no duplicate ids each selection is duplicate-free; and
every emitted record carries the run's root, a provider advertised in the
table with a region set intersecting the dispatch regions, and an entry in
the authorization set for the root. -/
def DispatchInv (rgs : List RegionCode) (root : Cid) (env : DispatchEnv)
    (st : DispatchState) : Prop :=
  (∀ l ∈ st.sentLog, ∀ p ∈ l, p ∈ st.rcv) ∧
  st.sentLog.Pairwise (fun l₁ l₂ => ∀ p ∈ l₁, p ∉ l₂) ∧
  ((env.table.map PeerEntry.id).Nodup → ∀ l ∈ st.sentLog, l.Nodup) ∧
  (∀ rec ∈ st.out,
    rec.PayloadCID = root ∧
    (∃ e ∈ env.table, e.id = rec.Provider ∧ regionsIntersect e.regions rgs = true) ∧
    (∃ s, pullsLookup st.pulls root = some s ∧ rec.Provider ∈ s))

theorem dispatchRound_inv (rgs : List RegionCode) (root : Cid) (rf : Nat)
    (env : DispatchEnv) (st : DispatchState)
    (h : DispatchInv rgs root env st) :
    DispatchInv rgs root env (dispatchRound rgs root rf env st) := by
  obtain ⟨h1, h2, h3, h4⟩ := h
  refine ⟨?_, ?_, ?_, ?_⟩
  · intro l hl p hp
    simp only [dispatchRound] at hl ⊢
    rcases List.mem_append.1 hl with hl | hl
    · exact List.mem_append_left _ (h1 l hl p hp)
    · rw [List.mem_singleton.1 hl] at hp
      exact List.mem_append_right _ hp
  · simp only [dispatchRound]
    rw [List.pairwise_append]
    refine ⟨h2, List.pairwise_singleton _ _, ?_⟩
    intro l hl l' hl' p hp
    rw [List.mem_singleton.1 hl']
    intro hp'
    exact absurd (h1 l hl p hp) (mem_peersSelect hp').2
  · intro hnodup l hl
    simp only [dispatchRound] at hl
    rcases List.mem_append.1 hl with hl | hl
    · exact h3 hnodup l hl
    · rw [List.mem_singleton.1 hl]
      exact peersSelect_nodup hnodup
  · intro rec hrec
    simp only [dispatchRound] at hrec ⊢
    rw [foldl_auth_eq]
    rcases List.mem_append.1 hrec with hrec | hrec
    · obtain ⟨hroot, hregion, hauth⟩ := h4 rec hrec
      refine ⟨hroot, hregion, ?_⟩
      exact (mem_foldl_auth _ _ _ _).2 (Or.inl hauth)
    · obtain ⟨q, hq, rfl⟩ := List.mem_map.1 hrec
      have hqp := List.mem_filter.1 hq
      refine ⟨rfl, (mem_peersSelect hqp.1).1, ?_⟩
      refine (mem_foldl_auth _ _ _ _).2 (Or.inr ?_)
      exact List.mem_map.2 ⟨q, hqp.1, rfl⟩

theorem dispatchLoop_inv (rgs : List RegionCode) (root : Cid) (rf : Nat)
    (env : DispatchEnv) (fuel : Nat) :
    ∀ st, DispatchInv rgs root env st →
      DispatchInv rgs root env (dispatchLoop rgs root rf env fuel st) := by
  induction fuel with
  | zero =>
    intro st h
    rw [dispatchLoop]
    exact h
  | succ k ih =>
    intro st h
    rw [dispatchLoop]
    by_cases hn : (dispatchRound rgs root rf env st).n = rf
    · rw [if_pos hn]
      exact dispatchRound_inv rgs root rf env st h
    · rw [if_neg hn]
      exact ih _ (dispatchRound_inv rgs root rf env st h)

theorem dispatchInit_inv (rgs : List RegionCode) (root : Cid) (env : DispatchEnv) :
    DispatchInv rgs root env dispatchInit := by
  refine ⟨?_, ?_, ?_, ?_⟩ <;> simp [dispatchInit]

theorem dispatchLoop_exit (rgs : List RegionCode) (root : Cid) (rf : Nat)
    (env : DispatchEnv) (fuel : Nat) :
    ∀ st, (dispatchLoop rgs root rf env fuel st).n = rf ∨
      (dispatchLoop rgs root rf env fuel st).sentLog.length =
        st.sentLog.length + fuel := by
  induction fuel with
  | zero =>
    intro st
    rw [dispatchLoop]
    exact Or.inr rfl
  | succ k ih =>
    intro st
    rw [dispatchLoop]
    by_cases hn : (dispatchRound rgs root rf env st).n = rf
    · rw [if_pos hn]
      exact Or.inl hn
    · rw [if_neg hn]
      rcases ih (dispatchRound rgs root rf env st) with h | h
      · exact Or.inl h
      · right
        rw [h]
        have hlen : (dispatchRound rgs root rf env st).sentLog.length =
            st.sentLog.length + 1 := by
          simp [dispatchRound]
        omega

theorem dispatchRound_n_le (rgs : List RegionCode) (root : Cid) (rf : Nat)
    (env : DispatchEnv) (st : DispatchState) (h : st.n ≤ rf) :
    (dispatchRound rgs root rf env st).n ≤ rf := by
  have h1 : (peersSelect (rf - st.n) rgs st.rcv env.table).length ≤ rf - st.n :=
    peersSelect_length_le _ _ _ _
  have h2 : ((peersSelect (rf - st.n) rgs st.rcv env.table).filter
      (fun p => env.sendOk p && env.responds p)).length ≤
        (peersSelect (rf - st.n) rgs st.rcv env.table).length :=
    List.length_filter_le _ _
  simp only [dispatchRound]
  omega

theorem dispatchLoop_n_le (rgs : List RegionCode) (root : Cid) (rf : Nat)
    (env : DispatchEnv) (fuel : Nat) :
    ∀ st, st.n ≤ rf → (dispatchLoop rgs root rf env fuel st).n ≤ rf := by
  induction fuel with
  | zero =>
    intro st h
    rw [dispatchLoop]
    exact h
  | succ k ih =>
    intro st h
    rw [dispatchLoop]
    by_cases hn : (dispatchRound rgs root rf env st).n = rf
    · rw [if_pos hn, hn]
    · rw [if_neg hn]
      exact ih _ (dispatchRound_n_le rgs root rf env st h)

theorem dispatchLoop_sentLog_le (rgs : List RegionCode) (root : Cid) (rf : Nat)
    (env : DispatchEnv) (fuel : Nat) :
    ∀ st, (dispatchLoop rgs root rf env fuel st).sentLog.length ≤
      st.sentLog.length + fuel := by
  induction fuel with
  | zero =>
    intro st
    rw [dispatchLoop]
    omega
  | succ k ih =>
    intro st
    rw [dispatchLoop]
    have hlen : (dispatchRound rgs root rf env st).sentLog.length =
        st.sentLog.length + 1 := by
      simp [dispatchRound]
    by_cases hn : (dispatchRound rgs root rf env st).n = rf
    · rw [if_pos hn]
      omega
    · rw [if_neg hn]
      have := ih (dispatchRound rgs root rf env st)
      omega

/-! ## C6, C7, C8, C10 -/

/-- C6: for every dispatch run the confirmation count never exceeds `RF`, at
most `BackoffAttemps + 1` attempts are made, and the run closes the result
channel exactly when the confirmations reach `RF` or the attempt budget is
exhausted; and whenever the peer table (with no duplicate ids) offers at
least `RF` peers whose regions intersect the dispatch regions, with every
stream write succeeding and every requested peer confirming within its
attempt, the run yields exactly `RF` records, all from distinct providers,
all carrying the request's payload CID as root. -/
theorem dispatch_termination_and_quorum (rgs : List RegionCode) (req : Request)
    (opt : DispatchOptions) :
    (∀ env : DispatchEnv,
        (Dispatch rgs env req opt).n ≤ opt.RF ∧
        (Dispatch rgs env req opt).sentLog.length ≤ opt.BackoffAttemps + 1 ∧
        ((Dispatch rgs env req opt).n = opt.RF ∨
         (Dispatch rgs env req opt).sentLog.length = opt.BackoffAttemps + 1)) ∧
    (∀ env : DispatchEnv,
        (env.table.map PeerEntry.id).Nodup →
        (∀ p, env.sendOk p = true) →
        (∀ p, env.responds p = true) →
        opt.RF ≤ (env.table.filter
          (fun e => regionsIntersect e.regions rgs)).length →
        (Dispatch rgs env req opt).out.length = opt.RF ∧
        ((Dispatch rgs env req opt).out.map PRecord.Provider).Nodup ∧
        (∀ rec ∈ (Dispatch rgs env req opt).out,
          rec.PayloadCID = req.PayloadCID)) := by
  constructor
  · intro env
    rw [Dispatch]
    refine ⟨dispatchLoop_n_le _ _ _ _ _ _ (Nat.zero_le _), ?_, ?_⟩
    · have := dispatchLoop_sentLog_le rgs req.PayloadCID opt.RF env
        (opt.BackoffAttemps + 1) dispatchInit
      simpa [dispatchInit] using this
    · have := dispatchLoop_exit rgs req.PayloadCID opt.RF env
        (opt.BackoffAttemps + 1) dispatchInit
      simpa [dispatchInit] using this
  · intro env hnodup hsend hresp hP
    have hfilt : ∀ ps : List PeerID,
        ps.filter (fun p => env.sendOk p && env.responds p) = ps := by
      intro ps
      apply List.filter_eq_self.2
      intro p _
      rw [hsend p, hresp p]
      rfl
    have hlen : (peersSelect opt.RF rgs [] env.table).length = opt.RF := by
      rw [peersSelect_nil_exclude, List.length_take, List.length_map]
      omega
    have hround : (dispatchRound rgs req.PayloadCID opt.RF env dispatchInit).n =
        opt.RF := by
      simp only [dispatchRound, dispatchInit, hfilt]
      rw [Nat.sub_zero, hlen]
      omega
    rw [Dispatch, dispatchLoop, if_pos hround]
    simp only [dispatchRound, dispatchInit, hfilt]
    rw [Nat.sub_zero]
    refine ⟨?_, ?_, ?_⟩
    · rw [List.nil_append, List.length_map, hlen]
    · rw [List.nil_append, List.map_map]
      have : (PRecord.Provider ∘ fun p =>
          { Provider := p, PayloadCID := req.PayloadCID : PRecord }) = id := by
        funext p
        rfl
      rw [this, List.map_id]
      exact peersSelect_nodup hnodup
    · intro rec hrec
      rw [List.nil_append] at hrec
      obtain ⟨p, hp, rfl⟩ := List.mem_map.1 hrec
      rfl

/-- C7: a dispatch run to regions `rgs` only ever emits records whose
provider is advertised in the peer table with a region set intersecting
`rgs` (so a peer whose regions are disjoint from `rgs` never appears), and
every emitted provider was authorized for the pull of the request's root. -/
theorem dispatch_region_filtering (rgs : List RegionCode) (env : DispatchEnv)
    (req : Request) (opt : DispatchOptions) :
    ∀ rec ∈ (Dispatch rgs env req opt).out,
      (∃ e ∈ env.table, e.id = rec.Provider ∧
        regionsIntersect e.regions rgs = true) ∧
      (∃ s, pullsLookup (Dispatch rgs env req opt).pulls req.PayloadCID = some s ∧
        rec.Provider ∈ s) := by
  intro rec hrec
  rw [Dispatch] at hrec ⊢
  have h := dispatchLoop_inv rgs req.PayloadCID opt.RF env (opt.BackoffAttemps + 1)
    dispatchInit (dispatchInit_inv rgs req.PayloadCID env)
  obtain ⟨-, -, hauth⟩ := h.2.2.2 rec hrec
  exact ⟨(h.2.2.2 rec hrec).2.1, hauth⟩

/-- C10: within a single dispatch run each peer is selected for at most one
`Request` — each attempt's selection is duplicate-free (given a
duplicate-free peer table), selections of distinct attempts are disjoint —
and every selected peer is in the seen set `rcv` at the end of the run, the
set having been updated at selection time independently of whether the
stream to the peer could be opened or written. -/
theorem dispatch_at_most_one_request (rgs : List RegionCode) (env : DispatchEnv)
    (req : Request) (opt : DispatchOptions)
    (hnodup : (env.table.map PeerEntry.id).Nodup) :
    (∀ l ∈ (Dispatch rgs env req opt).sentLog, l.Nodup) ∧
    (Dispatch rgs env req opt).sentLog.Pairwise (fun l₁ l₂ => ∀ p ∈ l₁, p ∉ l₂) ∧
    (∀ l ∈ (Dispatch rgs env req opt).sentLog, ∀ p ∈ l,
      p ∈ (Dispatch rgs env req opt).rcv) := by
  rw [Dispatch]
  have h := dispatchLoop_inv rgs req.PayloadCID opt.RF env (opt.BackoffAttemps + 1)
    dispatchInit (dispatchInit_inv rgs req.PayloadCID env)
  exact ⟨h.2.2.1 hnodup, h.2.1, h.1⟩

/-- Witness environment: three peers, two of them in region 1, all streams
succeeding and all pulls confirming. -/
def quorumEnv : DispatchEnv :=
  { table := [{ id := 10, regions := [1] }, { id := 11, regions := [1] },
              { id := 12, regions := [2] }],
    sendOk := fun _ => true,
    responds := fun _ => true }

/-- Witness for C6: dispatching to region 1 with `RF = 2` over `quorumEnv`
yields exactly two records, from distinct providers, all rooted at the
request's payload CID 99. -/
theorem dispatch_termination_and_quorum_witness :
    (Dispatch [1] quorumEnv ⟨99, 5⟩ ⟨1, 4, 2⟩).out.length = 2 ∧
    ((Dispatch [1] quorumEnv ⟨99, 5⟩ ⟨1, 4, 2⟩).out.map PRecord.Provider).Nodup ∧
    (∀ rec ∈ (Dispatch [1] quorumEnv ⟨99, 5⟩ ⟨1, 4, 2⟩).out,
      rec.PayloadCID = 99) :=
  (dispatch_termination_and_quorum [1] ⟨99, 5⟩ ⟨1, 4, 2⟩).2 quorumEnv
    (by decide) (fun _ => rfl) (fun _ => rfl) (by decide)

/-- Witness for C7: the record emitted for provider 10 in the `quorumEnv` run
is backed by a region-1 table entry and by an authorization for root 99. -/
theorem dispatch_region_filtering_witness :
    (∃ e ∈ quorumEnv.table, e.id = (⟨10, 99⟩ : PRecord).Provider ∧
      regionsIntersect e.regions [1] = true) ∧
    (∃ s, pullsLookup (Dispatch [1] quorumEnv ⟨99, 5⟩ ⟨1, 4, 2⟩).pulls 99 = some s ∧
      (⟨10, 99⟩ : PRecord).Provider ∈ s) :=
  dispatch_region_filtering [1] quorumEnv ⟨99, 5⟩ ⟨1, 4, 2⟩ ⟨10, 99⟩ (by decide)

/-- Witness for C10: in the `quorumEnv` run every attempt's selection is
duplicate-free, distinct attempts are disjoint, and all selected peers end
up in the seen set. -/
theorem dispatch_at_most_one_request_witness :
    (∀ l ∈ (Dispatch [1] quorumEnv ⟨99, 5⟩ ⟨1, 4, 2⟩).sentLog, l.Nodup) ∧
    (Dispatch [1] quorumEnv ⟨99, 5⟩ ⟨1, 4, 2⟩).sentLog.Pairwise
      (fun l₁ l₂ => ∀ p ∈ l₁, p ∉ l₂) ∧
    (∀ l ∈ (Dispatch [1] quorumEnv ⟨99, 5⟩ ⟨1, 4, 2⟩).sentLog, ∀ p ∈ l,
      p ∈ (Dispatch [1] quorumEnv ⟨99, 5⟩ ⟨1, 4, 2⟩).rcv) :=
  dispatch_at_most_one_request [1] quorumEnv ⟨99, 5⟩ ⟨1, 4, 2⟩ (by decide)

/-- The environment of the C8 counterexample: a single reachable in-region
peer (id 7, region 0) whose request stream always fails. -/
def failEnv : DispatchEnv :=
  { table := [{ id := 7, regions := [0] }],
    sendOk := fun _ => false,
    responds := fun _ => true }

/-- C8 (counterexample): with one in-region peer whose stream fails, a
dispatch run with `RF = 1` and three retries sends to the peer in the first
attempt only — its selection marks it seen, and no later attempt selects it
again, contradicting the claim that the dispatcher retries the peer. -/
theorem dispatch_no_retry_counterexample :
    (Dispatch [0] failEnv ⟨99, 5⟩ ⟨1, 3, 1⟩).sentLog = [[7], [], [], []] ∧
    failEnv.sendOk 7 = false ∧
    (∀ l ∈ (Dispatch [0] failEnv ⟨99, 5⟩ ⟨1, 3, 1⟩).sentLog.drop 1, 7 ∉ l) := by
  refine ⟨rfl, rfl, by decide⟩

theorem dispatch_pairwise_helper (rgs : List RegionCode) (env : DispatchEnv)
    (req : Request) (opt : DispatchOptions) :
    (Dispatch rgs env req opt).sentLog.Pairwise (fun l₁ l₂ => ∀ p ∈ l₁, p ∉ l₂) := by
  rw [Dispatch]
  exact (dispatchLoop_inv rgs req.PayloadCID opt.RF env (opt.BackoffAttemps + 1)
    dispatchInit (dispatchInit_inv rgs req.PayloadCID env)).2.1

/-- C8 (amended): a peer whose request stream failed is not retried within
the same dispatch run — it enters the seen set at selection time, before the
stream is opened, and every later attempt's selection excludes it. -/
theorem dispatch_failed_peer_no_resend (rgs : List RegionCode) (env : DispatchEnv)
    (req : Request) (opt : DispatchOptions) (p : PeerID)
    (hfail : env.sendOk p = false) :
    ∀ i j : Fin (Dispatch rgs env req opt).sentLog.length, i < j →
      p ∈ (Dispatch rgs env req opt).sentLog.get i →
      p ∉ (Dispatch rgs env req opt).sentLog.get j := by
  intro i j hij hpi
  have h := dispatch_pairwise_helper rgs env req opt
  exact List.pairwise_iff_get.1 h i j hij p hpi

/-- Witness for C8 (amended): in the `failEnv` run, peer 7 is selected in
attempt 0 and excluded from attempt 1. -/
theorem dispatch_failed_peer_no_resend_witness :
    7 ∈ (Dispatch [0] failEnv ⟨99, 5⟩ ⟨1, 3, 1⟩).sentLog.get ⟨0, by decide⟩ ∧
    7 ∉ (Dispatch [0] failEnv ⟨99, 5⟩ ⟨1, 3, 1⟩).sentLog.get ⟨1, by decide⟩ :=
  ⟨by decide,
   dispatch_failed_peer_no_resend [0] failEnv ⟨99, 5⟩ ⟨1, 3, 1⟩ 7 rfl
     ⟨0, by decide⟩ ⟨1, by decide⟩ (by decide) (by decide)⟩

end Hop
